import Mathlib

/-!
Shallow embedding of `src/report.py`, a campaign-report pipeline that joins a
cost feed and a revenue feed.  The pipeline parses an Eastern-Time timestamp
column to UTC (pandas `tz_localize(..., ambiguous="infer",
nonexistent="shift_forward")`), filters rows to an inclusive UTC day window,
aggregates daily (and optionally hourly) per campaign, outer-joins the two
aggregates, derives profit / CPC / ROI with a NaN-producing safe division, and
formats the result.

Modelling conventions:
- instants are minutes since the Unix epoch, as `Int`;
- float64 columns are `ℚ`; a column that can hold NaN is `Option ℚ`
  (`none` = NaN), matching IEEE NaN propagation in the operations used;
- pandas group-by sorts group keys; we model it as sort-of-dedup of keys plus
  a per-key reduction over the matching rows;
- the America/New_York DST transitions follow the historical US rules over
  the whole 1969-2068 year range the `%y` parse admits: last Sunday of April
  to last Sunday of October up to 1986 (with the emergency starts of
  1974-01-06 and 1975-02-23), first Sunday of April to last Sunday of
  October for 1987-2006, and second Sunday of March to first Sunday of
  November from 2007 on; every transition is at 02:00 local.
-/

namespace Report

/-! ### Calendar arithmetic (proleptic Gregorian, days since 1970-01-01) -/

/-- Gregorian leap year. -/
def isLeap (y : Int) : Bool := (y % 4 == 0 && y % 100 != 0) || (y % 400 == 0)

/-- Number of days in a month. -/
def daysInMonth (y : Int) (m : Nat) : Nat :=
  if m = 2 then (if isLeap y then 29 else 28)
  else if m = 4 ∨ m = 6 ∨ m = 9 ∨ m = 11 then 30
  else 31

/-- Days since 1970-01-01 of a Gregorian date (civil-to-days algorithm). -/
def daysFromCivil (y : Int) (m d : Nat) : Int :=
  let y' : Int := if m ≤ 2 then y - 1 else y
  let era : Int := Int.fdiv y' 400
  let yoe : Nat := (y' - era * 400).toNat
  let mp : Nat := (m + 9) % 12
  let doy : Nat := (153 * mp + 2) / 5 + d - 1
  let doe : Nat := yoe * 365 + yoe / 4 - yoe / 100 + doy
  era * 146097 + (doe : Int) - 719468

/-- Inverse of `daysFromCivil`: (year, month, day) of a day number. -/
def civilFromDays (z0 : Int) : Int × Nat × Nat :=
  let z : Int := z0 + 719468
  let era : Int := Int.fdiv z 146097
  let doe : Nat := (z - era * 146097).toNat
  let yoe : Nat := (doe - doe / 1460 + doe / 36524 - doe / 146096) / 365
  let y : Int := (yoe : Int) + era * 400
  let doy : Nat := doe - (365 * yoe + yoe / 4 - yoe / 100)
  let mp : Nat := (5 * doy + 2) / 153
  let d : Nat := doy - (153 * mp + 2) / 5 + 1
  let m : Nat := if mp < 10 then mp + 3 else mp - 9
  (if m ≤ 2 then y + 1 else y, m, d)

/-- Day of week of a day number; 0 = Sunday. -/
def dayOfWeek (days : Int) : Nat := ((days + 4) % 7).toNat

/-- Day-of-month of the n-th Sunday of a month. -/
def nthSunday (y : Int) (month n : Nat) : Nat :=
  let w := dayOfWeek (daysFromCivil y month 1)
  1 + (7 - w) % 7 + 7 * (n - 1)

/-- Day-of-month of the last Sunday of a month. -/
def lastSunday (y : Int) (month : Nat) : Nat :=
  let l := daysInMonth y month
  l - dayOfWeek (daysFromCivil y month l)

/-! ### Strict parse of the `MM/DD/YY HH:MM` timestamp column
(pandas `to_datetime(format="%m/%d/%y %H:%M", errors="raise")`). -/

/-- A parsed local (wall-clock) datetime. -/
structure LocalDT where
  year : Nat
  month : Nat
  day : Nat
  hour : Nat
  minute : Nat
deriving DecidableEq, Repr

/-- Split a character list on a separator character. -/
def splitOnChar (c : Char) : List Char → List (List Char)
  | [] => [[]]
  | x :: xs =>
    let r := splitOnChar c xs
    if x = c then [] :: r
    else
      match r with
      | [] => [[x]]
      | h :: t => (x :: h) :: t

/-- Parse a nonempty all-digit character list as a decimal number. -/
def digitsToNat (l : List Char) : Option Nat :=
  if l.isEmpty then none
  else
    l.foldl
      (fun acc c =>
        match acc with
        | none => none
        | some n => if c.isDigit then some (n * 10 + (c.toNat - 48)) else none)
      (some 0)

/-- Parse a 1- or 2-digit numeric field. -/
def parse2 (l : List Char) : Option Nat :=
  if l.length = 0 ∨ 2 < l.length then none else digitsToNat l

/-- Strict parse of `MM/DD/YY HH:MM`; `%y` maps 00-68 to 2000-2068 and
69-99 to 1969-1999.  Any mismatch is an error (`none`), as with
`errors="raise"`. -/
def parseMDYHM (s : String) : Option LocalDT :=
  match splitOnChar ' ' s.toList with
  | [dPart, tPart] =>
    match splitOnChar '/' dPart, splitOnChar ':' tPart with
    | [ms, ds, ys], [hs, mis] => do
      let m ← parse2 ms
      let d ← parse2 ds
      let yy ← parse2 ys
      let h ← parse2 hs
      let mi ← parse2 mis
      let y := if yy ≤ 68 then 2000 + yy else 1900 + yy
      if 1 ≤ m ∧ m ≤ 12 ∧ 1 ≤ d ∧ d ≤ daysInMonth (y : Int) m ∧ h ≤ 23 ∧ mi ≤ 59 then
        some ⟨y, m, d, h, mi⟩
      else none
    | _, _ => none
  | _ => none

/-! ### America/New_York localization with `ambiguous="infer"`,
`nonexistent="shift_forward"` -/

/-- Wall-clock minutes since the epoch (no zone applied yet). -/
def wallMin (t : LocalDT) : Int :=
  daysFromCivil (t.year : Int) t.month t.day * 1440 + (t.hour * 60 + t.minute : Nat)

/-- Wall-clock minute at which DST starts, per the historical US Eastern
rules: second Sunday of March from 2007, first Sunday of April for
1987-2006, the emergency starts 1974-01-06 and 1975-02-23, and the last
Sunday of April otherwise (1969-1986); always at 02:00 local.  Wall times in
`[dstStartWall, dstStartWall + 60)` do not exist. -/
def dstStartWall (y : Nat) : Int :=
  if 2007 ≤ y then daysFromCivil (y : Int) 3 (nthSunday (y : Int) 3 2) * 1440 + 120
  else if 1987 ≤ y then daysFromCivil (y : Int) 4 (nthSunday (y : Int) 4 1) * 1440 + 120
  else if y = 1975 then daysFromCivil (y : Int) 2 23 * 1440 + 120
  else if y = 1974 then daysFromCivil (y : Int) 1 6 * 1440 + 120
  else daysFromCivil (y : Int) 4 (lastSunday (y : Int) 4) * 1440 + 120

/-- Wall-clock minute at which DST ends: first Sunday of November from 2007,
last Sunday of October before that (1969-2006); always at 02:00 local.  Wall
times in `[dstEndWall - 60, dstEndWall)` occur twice. -/
def dstEndWall (y : Nat) : Int :=
  if 2007 ≤ y then daysFromCivil (y : Int) 11 (nthSunday (y : Int) 11 1) * 1440 + 120
  else daysFromCivil (y : Int) 10 (lastSunday (y : Int) 10) * 1440 + 120

/-- The wall-clock time falls in the spring-forward gap. -/
def isNonexistentDT (t : LocalDT) : Bool :=
  decide (dstStartWall t.year ≤ wallMin t) && decide (wallMin t < dstStartWall t.year + 60)

/-- The wall-clock time falls in the fall-back repeated hour. -/
def isAmbiguousDT (t : LocalDT) : Bool :=
  decide (dstEndWall t.year - 60 ≤ wallMin t) && decide (wallMin t < dstEndWall t.year)

/-- The wall-clock time is unambiguously in DST (UTC-4). -/
def isDstDT (t : LocalDT) : Bool :=
  decide (dstStartWall t.year + 60 ≤ wallMin t) && decide (wallMin t < dstEndWall t.year - 60)

/-- UTC minutes of a wall time using the DST-side offset for ambiguous times
(pandas `result_a`); nonexistent times shift forward to the gap's end.  The
three classifications are mutually exclusive (the March gap and the November
fold are months apart), so the branch order is immaterial. -/
def localizeFirst (t : LocalDT) : Int :=
  if isAmbiguousDT t || isDstDT t then wallMin t + 240
  else if isNonexistentDT t then dstStartWall t.year + 300
  else wallMin t + 300

/-- UTC minutes using the standard-time offset for ambiguous times
(pandas `result_b`); agrees with `localizeFirst` elsewhere. -/
def localizeSecond (t : LocalDT) : Int :=
  if isAmbiguousDT t then wallMin t + 300 else localizeFirst t

/-- Successive differences of a list. -/
def deltas (l : List Int) : List Int := (l.zip l.tail).map fun p => p.2 - p.1

/-- Resolve one maximal run of consecutive ambiguous wall times, as pandas
`_get_dst_hours` does per run: the DST-side results must decrease (or repeat)
at exactly one position, which is the DST-to-standard switch; a run that
cannot be inferred (length 1, or not exactly one switch) is an error. -/
def resolveRun (run : List LocalDT) : Option (List Int) :=
  match run with
  | [] => some []
  | [_] => none
  | _ :: _ :: _ =>
    let a := run.map localizeFirst
    let ds := deltas a
    let switches := (List.range ds.length).filter fun i => decide (ds.getD i 0 ≤ 0)
    match switches with
    | [i] => some ((run.take (i + 1)).map localizeFirst ++ (run.drop (i + 1)).map localizeSecond)
    | _ => none

/-- Worker for `localizeInferList`: `pending` is the current run of ambiguous
wall times, in reverse input order. -/
def inferGo : List LocalDT → List LocalDT → Option (List Int)
  | pending, [] => resolveRun pending.reverse
  | pending, t :: rest =>
    if isAmbiguousDT t then inferGo (t :: pending) rest
    else do
      let r ← resolveRun pending.reverse
      let rest' ← inferGo [] rest
      some (r ++ localizeFirst t :: rest')

/-- Localize a whole column, inferring the offset of ambiguous fall-back
times from chronological context (pandas `ambiguous="infer"`). -/
def localizeInferList (ts : List LocalDT) : Option (List Int) := inferGo [] ts

/-- UTC day bucket of an instant (`dt.floor("D")`), in minutes. -/
def dateUtc (m : Int) : Int := Int.fdiv m 1440 * 1440

/-- UTC hour bucket of an instant (`dt.floor("h")`), in minutes. -/
def hourUtc (m : Int) : Int := Int.fdiv m 60 * 60

/-! ### Safe division (`safe_div`) -/

/-- Element-wise safe division over float values that may be NaN (`none`):
NaN where the denominator is 0, `a / b` otherwise; a NaN operand propagates
(numpy: the `b != 0` mask holds for NaN `b`, and `x / NaN = NaN / y = NaN`). -/
def safe_div (a b : Option ℚ) : Option ℚ :=
  match a, b with
  | some x, some y => if y = 0 then none else some (x / y)
  | _, _ => none

/-! ### Input rows (after CSV load and numeric coercion) -/

/-- One cost-feed row; `clicks` and `cost` are already coerced to numbers
(unparsable values became 0.0), `data_date` is the raw timestamp string. -/
structure CostRow where
  campaign_id : String
  campaign_name : String
  clicks : ℚ
  cost : ℚ
  data_date : String
deriving DecidableEq, Repr

/-- One revenue-feed row. -/
structure RevRow where
  campaign_id : String
  revenue : ℚ
  data_date : String
deriving DecidableEq, Repr

/-- Parse every value of a timestamp column; any failure is fatal
(`errors="raise"`). -/
def parseColumn : List String → Option (List LocalDT)
  | [] => some []
  | s :: rest =>
    match parseMDYHM s, parseColumn rest with
    | some d, some ds => some (d :: ds)
    | _, _ => none

/-- `parse_est_to_utc` for the cost feed: parse the timestamp column
strictly, localize the whole column with offset inference, and pair each row
with its UTC instant (`dt_utc`, in minutes). -/
def normalizeCost (rows : List CostRow) : Option (List (CostRow × Int)) := do
  let ds ← parseColumn (rows.map (·.data_date))
  let us ← localizeInferList ds
  some (rows.zip us)

/-- `parse_est_to_utc` for the revenue feed. -/
def normalizeRev (rows : List RevRow) : Option (List (RevRow × Int)) := do
  let ds ← parseColumn (rows.map (·.data_date))
  let us ← localizeInferList ds
  some (rows.zip us)

/-! ### Grouping keys and their sort orders -/

/-- Daily grouping key `(date_utc, campaign_id)`. -/
abbrev KeyD := Int × String

/-- Hourly grouping key `(date_utc, hour_utc, campaign_id)`. -/
abbrev KeyH := Int × Int × String

/-- Lexicographic order on daily keys (pandas sorts group keys and outer-join
keys this way). -/
def keyLe (a b : KeyD) : Prop := a.1 < b.1 ∨ (a.1 = b.1 ∧ a.2 ≤ b.2)

instance : DecidableRel keyLe :=
  fun a b => show Decidable (a.1 < b.1 ∨ (a.1 = b.1 ∧ a.2 ≤ b.2)) from inferInstance

/-- Lexicographic order on hourly keys. -/
def keyLe3 (a b : KeyH) : Prop :=
  a.1 < b.1 ∨ (a.1 = b.1 ∧ (a.2.1 < b.2.1 ∨ (a.2.1 = b.2.1 ∧ a.2.2 ≤ b.2.2)))

instance : DecidableRel keyLe3 :=
  fun a b =>
    show Decidable (a.1 < b.1 ∨ (a.1 = b.1 ∧ (a.2.1 < b.2.1 ∨ (a.2.1 = b.2.1 ∧ a.2.2 ≤ b.2.2))))
      from inferInstance

/-- The distinct keys of a key column, in sorted order — pandas group-by /
outer-join key semantics. -/
def sortedKeys (ks : List KeyD) : List KeyD := List.insertionSort keyLe ks.dedup

/-- Hourly-key version of `sortedKeys`. -/
def sortedKeysH (ks : List KeyH) : List KeyH := List.insertionSort keyLe3 ks.dedup

/-! ### Daily aggregation (`cost_daily`, `rev_daily`) -/

/-- Daily grouping key of a normalized cost row. -/
def keyNC (r : CostRow × Int) : KeyD := (dateUtc r.2, r.1.campaign_id)

/-- Daily grouping key of a normalized revenue row. -/
def keyNR (r : RevRow × Int) : KeyD := (dateUtc r.2, r.1.campaign_id)

/-- SQL-style `MIN` over the text values of a group (pandas `"min"` reducer);
the empty case cannot arise for a group-by group. -/
def minString : List String → String
  | [] => ""
  | h :: t => t.foldl min h

/-- One row of the daily cost aggregate. -/
structure CostAgg where
  date_utc : Int
  campaign_id : String
  campaign_name : String
  total_cost : ℚ
  total_clicks : ℚ
deriving DecidableEq, Repr

/-- Key of a daily cost-aggregate row. -/
def keyCA (a : CostAgg) : KeyD := (a.date_utc, a.campaign_id)

/-- `cost.groupby(["date_utc", "campaign_id"]).agg(min campaign_name,
sum cost, sum clicks)`. -/
def costDaily (rows : List (CostRow × Int)) : List CostAgg :=
  (sortedKeys (rows.map keyNC)).map fun k =>
    let grp := rows.filter fun r => decide (keyNC r = k)
    { date_utc := k.1
      campaign_id := k.2
      campaign_name := minString (grp.map fun r => r.1.campaign_name)
      total_cost := (grp.map fun r => r.1.cost).sum
      total_clicks := (grp.map fun r => r.1.clicks).sum }

/-- One row of the daily revenue aggregate. -/
structure RevAgg where
  date_utc : Int
  campaign_id : String
  total_revenue : ℚ
deriving DecidableEq, Repr

/-- Key of a daily revenue-aggregate row. -/
def keyRA (a : RevAgg) : KeyD := (a.date_utc, a.campaign_id)

/-- `rev.groupby(["date_utc", "campaign_id"]).agg(sum revenue)`. -/
def revDaily (rows : List (RevRow × Int)) : List RevAgg :=
  (sortedKeys (rows.map keyNR)).map fun k =>
    let grp := rows.filter fun r => decide (keyNR r = k)
    { date_utc := k.1
      campaign_id := k.2
      total_revenue := (grp.map fun r => r.1.revenue).sum }

/-! ### Outer join and zero/empty fill -/

/-- One row of the outer merge before `fillna`: a side absent for the key
contributes NaN/missing (`none`) fields. -/
structure JoinedRow where
  date_utc : Int
  campaign_id : String
  campaign_name : Option String
  total_cost : Option ℚ
  total_clicks : Option ℚ
  total_revenue : Option ℚ
deriving DecidableEq, Repr

/-- `pd.merge(cost_daily, rev_daily, on=["date_utc", "campaign_id"],
how="outer")`: one row per key in the union of the two key sets, sorted. -/
def outerMerge (c : List CostAgg) (r : List RevAgg) : List JoinedRow :=
  (sortedKeys (c.map keyCA ++ r.map keyRA)).map fun k =>
    let co := c.find? fun a => decide (keyCA a = k)
    let re := r.find? fun a => decide (keyRA a = k)
    { date_utc := k.1
      campaign_id := k.2
      campaign_name := co.map (·.campaign_name)
      total_cost := co.map (·.total_cost)
      total_clicks := co.map (·.total_clicks)
      total_revenue := re.map (·.total_revenue) }

/-- A reconciled row after the four `fillna` lines. -/
structure MergedRow where
  date_utc : Int
  campaign_id : String
  campaign_name : String
  total_cost : ℚ
  total_clicks : ℚ
  total_revenue : ℚ
deriving DecidableEq, Repr

/-- `fillna("")` / `fillna(0.0)` on the joined columns. -/
def fillDefaults (j : JoinedRow) : MergedRow :=
  { date_utc := j.date_utc
    campaign_id := j.campaign_id
    campaign_name := j.campaign_name.getD ""
    total_cost := j.total_cost.getD 0
    total_clicks := j.total_clicks.getD 0
    total_revenue := j.total_revenue.getD 0 }

/-! ### Derived metrics -/

/-- A daily report row with the derived metric columns. -/
structure ReportRow where
  date_utc : Int
  campaign_id : String
  campaign_name : String
  total_revenue : ℚ
  total_cost : ℚ
  total_profit : ℚ
  total_clicks : ℚ
  total_roi : Option ℚ
  avg_cpc : Option ℚ
deriving DecidableEq, Repr

/-- Step 7 of `main`: profit, average CPC, and the double-division ROI. -/
def derive (m : MergedRow) : ReportRow :=
  let uv := safe_div (some m.total_revenue) (some m.total_clicks)
  let cpc := safe_div (some m.total_cost) (some m.total_clicks)
  { date_utc := m.date_utc
    campaign_id := m.campaign_id
    campaign_name := m.campaign_name
    total_revenue := m.total_revenue
    total_cost := m.total_cost
    total_profit := m.total_revenue - m.total_cost
    total_clicks := m.total_clicks
    total_roi := safe_div uv cpc
    avg_cpc := safe_div (some m.total_cost) (some m.total_clicks) }

/-! ### Optional hourly columns -/

/-- Hourly key of a normalized cost row. -/
def keyNCH (r : CostRow × Int) : KeyH := (dateUtc r.2, hourUtc r.2, r.1.campaign_id)

/-- Hourly key of a normalized revenue row. -/
def keyNRH (r : RevRow × Int) : KeyH := (dateUtc r.2, hourUtc r.2, r.1.campaign_id)

/-- One row of the hourly cost aggregate. -/
structure CostHAgg where
  date_utc : Int
  hour_utc : Int
  campaign_id : String
  cost : ℚ
deriving DecidableEq, Repr

/-- Key of an hourly cost-aggregate row. -/
def keyCHA (a : CostHAgg) : KeyH := (a.date_utc, a.hour_utc, a.campaign_id)

/-- `cost.groupby(["date_utc", "hour_utc", "campaign_id"]).agg(sum cost)`. -/
def costHourly (rows : List (CostRow × Int)) : List CostHAgg :=
  (sortedKeysH (rows.map keyNCH)).map fun k =>
    let grp := rows.filter fun r => decide (keyNCH r = k)
    { date_utc := k.1
      hour_utc := k.2.1
      campaign_id := k.2.2
      cost := (grp.map fun r => r.1.cost).sum }

/-- One row of the hourly revenue aggregate. -/
structure RevHAgg where
  date_utc : Int
  hour_utc : Int
  campaign_id : String
  revenue : ℚ
deriving DecidableEq, Repr

/-- Key of an hourly revenue-aggregate row. -/
def keyRHA (a : RevHAgg) : KeyH := (a.date_utc, a.hour_utc, a.campaign_id)

/-- `rev.groupby(["date_utc", "hour_utc", "campaign_id"]).agg(sum revenue)`. -/
def revHourly (rows : List (RevRow × Int)) : List RevHAgg :=
  (sortedKeysH (rows.map keyNRH)).map fun k =>
    let grp := rows.filter fun r => decide (keyNRH r = k)
    { date_utc := k.1
      hour_utc := k.2.1
      campaign_id := k.2.2
      revenue := (grp.map fun r => r.1.revenue).sum }

/-- One row of the zero-filled hourly outer join `h`. -/
structure HRow where
  date_utc : Int
  hour_utc : Int
  campaign_id : String
  cost : ℚ
  revenue : ℚ
deriving DecidableEq, Repr

/-- Daily key of an hourly-join row. -/
def keyHR (h : HRow) : KeyD := (h.date_utc, h.campaign_id)

/-- `pd.merge(cost_h, rev_h, on=[date, hour, campaign], how="outer")
.fillna(0.0)`: one zero-filled bucket per hourly key in the union. -/
def hourlyJoin (fc : List (CostRow × Int)) (fr : List (RevRow × Int)) : List HRow :=
  let ch := costHourly fc
  let rh := revHourly fr
  (sortedKeysH (ch.map keyCHA ++ rh.map keyRHA)).map fun k =>
    { date_utc := k.1
      hour_utc := k.2.1
      campaign_id := k.2.2
      cost := (((ch.find? fun a => decide (keyCHA a = k)).map (·.cost)).getD 0)
      revenue := (((rh.find? fun a => decide (keyRHA a = k)).map (·.revenue)).getD 0) }

/-- `h["profit"] = h["revenue"] - h["cost"]`. -/
def profitH (h : HRow) : ℚ := h.revenue - h.cost

/-- `pos_hours`: per daily key, the number of hourly buckets with strictly
positive profit (`h[h["profit"] > 0].groupby(...).size()`). -/
def posHours (fc : List (CostRow × Int)) (fr : List (RevRow × Int)) : List (KeyD × Nat) :=
  let pos := (hourlyJoin fc fr).filter fun h => decide (0 < profitH h)
  (sortedKeys (pos.map keyHR)).map fun k =>
    (k, (pos.filter fun h => decide (keyHR h = k)).length)

/-- `avg_hourly_rev`: per daily key, the arithmetic mean of `revenue` over
that key's hourly buckets (`groupby(...).agg(mean revenue)`). -/
def avgHourlyRev (fc : List (CostRow × Int)) (fr : List (RevRow × Int)) : List (KeyD × ℚ) :=
  let h := hourlyJoin fc fr
  (sortedKeys (h.map keyHR)).map fun k =>
    let grp := (h.filter fun x => decide (keyHR x = k)).map (·.revenue)
    (k, grp.sum / (grp.length : ℚ))

/-- Lookup by key in a keyed association list (the left-join step). -/
def lookupKD {β : Type} (l : List (KeyD × β)) (k : KeyD) : Option β :=
  (l.find? fun p => decide (p.1 = k)).map (·.2)

/-! ### Output formatting -/

/-- Zero-pad a number to two digits. -/
def pad2 (n : Nat) : String := if n < 10 then "0" ++ toString n else toString n

/-- Zero-pad a year to four digits. -/
def pad4 (n : Nat) : String :=
  if n < 10 then "000" ++ toString n
  else if n < 100 then "00" ++ toString n
  else if n < 1000 then "0" ++ toString n
  else toString n

/-- `strftime("%Y/%m/%d")` of a UTC day bucket (minutes). -/
def fmtDay (dayMin : Int) : String :=
  let c := civilFromDays (Int.fdiv dayMin 1440)
  pad4 c.1.toNat ++ "/" ++ pad2 c.2.1 ++ "/" ++ pad2 c.2.2

/-- One row of the final output table; the two hourly columns are `none`
exactly when hourly mode is off (they are then not part of the output). -/
structure OutRow where
  date : String
  campaign_id : String
  campaign_name : String
  total_revenue : ℚ
  total_cost : ℚ
  total_profit : ℚ
  total_clicks : ℚ
  total_roi : Option ℚ
  avg_cpc : Option ℚ
  hourly_avg_revenue : Option ℚ
  positive_profit_hours : Option Int
deriving DecidableEq, Repr

/-- Format one report row, left-joining the two hourly enrichment columns
when hourly mode is on (`fillna(0)` / `fillna(0.0)` on a missing key). -/
def toOutRow (hourly : Bool) (ph : List (KeyD × Nat)) (ar : List (KeyD × ℚ))
    (r : ReportRow) : OutRow :=
  let k : KeyD := (r.date_utc, r.campaign_id)
  { date := fmtDay r.date_utc
    campaign_id := r.campaign_id
    campaign_name := r.campaign_name
    total_revenue := r.total_revenue
    total_cost := r.total_cost
    total_profit := r.total_profit
    total_clicks := r.total_clicks
    total_roi := r.total_roi
    avg_cpc := r.avg_cpc
    hourly_avg_revenue := if hourly then some ((lookupKD ar k).getD 0) else none
    positive_profit_hours :=
      if hourly then some (((lookupKD ph k).getD 0 : Nat) : Int) else none }

/-- Final sort order: ascending by (date string, campaign_id). -/
def outLe (a b : OutRow) : Prop := a.date < b.date ∨ (a.date = b.date ∧ a.campaign_id ≤ b.campaign_id)

instance : DecidableRel outLe :=
  fun a b => show Decidable (a.date < b.date ∨ (a.date = b.date ∧ a.campaign_id ≤ b.campaign_id))
    from inferInstance

/-! ### The whole pipeline -/

/-- A calendar date (as given in `--date-from` / `--date-to`). -/
structure CalDate where
  year : Nat
  month : Nat
  day : Nat
deriving DecidableEq, Repr

/-- UTC midnight of a calendar date, in minutes. -/
def dayMinOfDate (d : CalDate) : Int := daysFromCivil (d.year : Int) d.month d.day * 1440

/-- Run configuration (the external `parseArgs` collaborator's result). -/
structure Config where
  date_from : CalDate
  date_to : CalDate
  hourly : Bool
deriving DecidableEq, Repr

/-- `main`'s core pipeline: normalize both feeds, filter to the inclusive
UTC-day window, aggregate daily, outer-join, fill, derive metrics, optionally
enrich with the hourly columns, format and sort.  `none` is a fatal
timestamp-parse or ambiguity-inference error. -/
def runPipeline (cfg : Config) (costRows : List CostRow) (revRows : List RevRow) :
    Option (List OutRow) := do
  let nc ← normalizeCost costRows
  let nr ← normalizeRev revRows
  let dFrom := dayMinOfDate cfg.date_from
  let dTo := dayMinOfDate cfg.date_to
  let fc := nc.filter fun r => decide (dFrom ≤ dateUtc r.2) && decide (dateUtc r.2 ≤ dTo)
  let fr := nr.filter fun r => decide (dFrom ≤ dateUtc r.2) && decide (dateUtc r.2 ≤ dTo)
  let rep := (outerMerge (costDaily fc) (revDaily fr)).map fun j => derive (fillDefaults j)
  let ph := if cfg.hourly then posHours fc fr else []
  let ar := if cfg.hourly then avgHourlyRev fc fr else []
  some (List.insertionSort outLe (rep.map (toOutRow cfg.hourly ph ar)))

/-! ## General lemmas about the grouping / joining machinery -/

theorem mem_sortedKeys {l : List KeyD} {k : KeyD} : k ∈ sortedKeys l ↔ k ∈ l := by
  rw [sortedKeys, List.mem_insertionSort, List.mem_dedup]

theorem nodup_sortedKeys (l : List KeyD) : (sortedKeys l).Nodup :=
  ((List.perm_insertionSort keyLe l.dedup).nodup_iff).mpr l.nodup_dedup

theorem length_sortedKeys (l : List KeyD) : (sortedKeys l).length = l.dedup.length :=
  (List.perm_insertionSort keyLe l.dedup).length_eq

theorem mem_sortedKeysH {l : List KeyH} {k : KeyH} : k ∈ sortedKeysH l ↔ k ∈ l := by
  rw [sortedKeysH, List.mem_insertionSort, List.mem_dedup]

theorem nodup_sortedKeysH (l : List KeyH) : (sortedKeysH l).Nodup :=
  ((List.perm_insertionSort keyLe3 l.dedup).nodup_iff).mpr l.nodup_dedup

/-- `find?` over the graph of a function on a key list. -/
theorem find?_map_graph {κ β : Type} [DecidableEq κ] (keys : List κ) (g : κ → β) (key : β → κ)
    (hg : ∀ k, key (g k) = k) (k : κ) :
    (keys.map g).find? (fun b => decide (key b = k)) = if k ∈ keys then some (g k) else none := by
  induction keys with
  | nil => simp
  | cons hd t ih =>
    simp only [List.map_cons, List.find?_cons]
    by_cases h : hd = k
    · subst h
      simp [hg]
    · have hd1 : (decide (key (g hd) = k)) = false := by simp [hg, h]
      have hm : (k ∈ hd :: t) ↔ (k ∈ t) :=
        ⟨fun hk => (List.mem_cons.mp hk).resolve_left fun he => absurd he.symm h,
         List.mem_cons_of_mem _⟩
      simp only [hd1, ih, hm]

/-- Lookup in an association list built as the graph of `f`. -/
theorem lookupKD_graph {β : Type} (keys : List KeyD) (f : KeyD → β) (k : KeyD) :
    lookupKD (keys.map fun x => (x, f x)) k = if k ∈ keys then some (f k) else none := by
  rw [lookupKD, find?_map_graph keys (fun x => (x, f x)) Prod.fst (fun _ => rfl) k]
  by_cases h : k ∈ keys <;> simp [h]

/-- A filter and its complement split a mapped sum. -/
theorem sum_map_filter_split {α : Type} (p : α → Bool) (f : α → ℚ) (l : List α) :
    ((l.filter p).map f).sum + ((l.filter fun a => !(p a)).map f).sum = (l.map f).sum := by
  induction l with
  | nil => simp
  | cons a t ih =>
    by_cases h : p a = true
    · rw [List.filter_cons_of_pos h, List.filter_cons_of_neg (by simp [h]),
        List.map_cons, List.sum_cons, add_assoc, ih, List.map_cons, List.sum_cons]
    · rw [List.filter_cons_of_neg (by simp [h]), List.filter_cons_of_pos (by simp [h]),
        List.map_cons, List.sum_cons, add_left_comm, ih, List.map_cons, List.sum_cons]

/-- Pre-filtering by a weaker predicate does not change a filter. -/
theorem filter_filter_of_imp {α : Type} (p q : α → Bool) (h : ∀ a, p a = true → q a = true)
    (l : List α) : (l.filter q).filter p = l.filter p := by
  induction l with
  | nil => rfl
  | cons a t ih =>
    by_cases hq : q a = true
    · simp only [List.filter_cons, hq, if_true]
      by_cases hp : p a = true <;> simp [List.filter_cons, hp, ih]
    · have hp : p a = false := by
        cases hpa : p a with
        | false => rfl
        | true => exact absurd (h a hpa) hq
      simp [List.filter_cons, hq, hp, ih]

/-- Summing group sums over a complete, duplicate-free key list equals the
sum over all rows: each row lands in exactly one group. -/
theorem sum_over_parts {α κ : Type} [DecidableEq κ] (ks : List κ) (rows : List α)
    (key : α → κ) (f : α → ℚ) (hnd : ks.Nodup) (hcomp : ∀ r ∈ rows, key r ∈ ks) :
    (ks.map fun k => ((rows.filter fun r => decide (key r = k)).map f).sum).sum
      = (rows.map f).sum := by
  induction ks generalizing rows with
  | nil =>
    have : rows = [] := by
      cases rows with
      | nil => rfl
      | cons a t => exact absurd (hcomp a (List.mem_cons_self a t)) (List.not_mem_nil _)
    subst this
    simp
  | cons k ks' ih =>
    simp only [List.map_cons, List.sum_cons]
    have hsplit := sum_map_filter_split (fun r => decide (key r = k)) f rows
    rw [← hsplit]
    congr 1
    have hrw : ∀ k' ∈ ks',
        ((rows.filter fun r => decide (key r = k')).map f).sum
          = (((rows.filter fun a => !(decide (key a = k))).filter
              fun r => decide (key r = k')).map f).sum := by
      intro k' hk'
      have hkk : k' ≠ k := fun he => (List.nodup_cons.mp hnd).1 (he ▸ hk')
      rw [filter_filter_of_imp (fun r => decide (key r = k'))
        (fun a => !(decide (key a = k)))
        (fun a ha => by
          simp only [decide_eq_true_eq] at ha
          simp [ha, hkk])]
    calc (ks'.map fun k' => ((rows.filter fun r => decide (key r = k')).map f).sum).sum
        = (ks'.map fun k' => (((rows.filter fun a => !(decide (key a = k))).filter
            fun r => decide (key r = k')).map f).sum).sum := by
          exact congrArg List.sum (List.map_congr_left hrw)
      _ = ((rows.filter fun a => !(decide (key a = k))).map f).sum := by
          refine ih _ (List.nodup_cons.mp hnd).2 ?_
          intro r hr
          have hrr := List.mem_filter.mp hr
          have hks := hcomp r hrr.1
          rcases List.mem_cons.mp hks with he | ht
          · exfalso
            have := hrr.2
            simp [he] at this
          · exact ht

/-- `costDaily` on a single row. -/
theorem costDaily_singleton (x : CostRow × Int) :
    costDaily [x] =
      [{ date_utc := (keyNC x).1
         campaign_id := (keyNC x).2
         campaign_name := x.1.campaign_name
         total_cost := x.1.cost
         total_clicks := x.1.clicks }] := by
  simp [costDaily, sortedKeys, List.insertionSort, minString]

/-- `revDaily` on a single row. -/
theorem revDaily_singleton (x : RevRow × Int) :
    revDaily [x] =
      [{ date_utc := (keyNR x).1
         campaign_id := (keyNR x).2
         total_revenue := x.1.revenue }] := by
  simp [revDaily, sortedKeys, List.insertionSort]

/-! ## Concrete data for the end-to-end example and for witnesses -/

/-- The example cost-feed row. -/
def exCost : CostRow :=
  { campaign_id := "A", campaign_name := "Ads", clicks := 10, cost := 5
    data_date := "12/31/18 19:00" }

/-- The example revenue-feed row. -/
def exRev : RevRow := { campaign_id := "A", revenue := 20, data_date := "12/31/18 19:00" }

/-- The example configuration: window 2019-01-01 .. 2019-01-01, hourly off. -/
def exCfg : Config := { date_from := ⟨2019, 1, 1⟩, date_to := ⟨2019, 1, 1⟩, hourly := false }

/-- Daily cost aggregate of the example (2019-01-01 UTC is minute 25771680). -/
def exCAgg : CostAgg :=
  { date_utc := 25771680, campaign_id := "A", campaign_name := "Ads"
    total_cost := 5, total_clicks := 10 }

/-- Daily revenue aggregate of the example. -/
def exRAgg : RevAgg := { date_utc := 25771680, campaign_id := "A", total_revenue := 20 }

/-- The example's outer-merge row. -/
def exJ : JoinedRow :=
  { date_utc := 25771680, campaign_id := "A", campaign_name := some "Ads"
    total_cost := some 5, total_clicks := some 10, total_revenue := some 20 }

/-- The example's filled row. -/
def exM : MergedRow :=
  { date_utc := 25771680, campaign_id := "A", campaign_name := "Ads"
    total_cost := 5, total_clicks := 10, total_revenue := 20 }

/-- The example's derived report row. -/
def exRep : ReportRow :=
  { date_utc := 25771680, campaign_id := "A", campaign_name := "Ads"
    total_revenue := 20, total_cost := 5, total_profit := 15, total_clicks := 10
    total_roi := some 4, avg_cpc := some (1 / 2) }

/-- The output row the code actually produces for the example
(`totalRoi = (20/10) / (5/10) = 4`). -/
def exOut : OutRow :=
  { date := "2019/01/01", campaign_id := "A", campaign_name := "Ads"
    total_revenue := 20, total_cost := 5, total_profit := 15, total_clicks := 10
    total_roi := some 4, avg_cpc := some (1 / 2)
    hourly_avg_revenue := none, positive_profit_hours := none }

/-- The output row the specification's example asserts (`totalRoi = 1.0`). -/
def exOutClaimed : OutRow :=
  { date := "2019/01/01", campaign_id := "A", campaign_name := "Ads"
    total_revenue := 20, total_cost := 5, total_profit := 15, total_clicks := 10
    total_roi := some 1, avg_cpc := some (1 / 2)
    hourly_avg_revenue := none, positive_profit_hours := none }

/-- Full evaluation of the pipeline on the end-to-end example. -/
theorem pipelineEx_eval : runPipeline exCfg [exCost] [exRev] = some [exOut] := by
  have hnc : normalizeCost [exCost] = some [(exCost, 25771680)] := by decide
  have hnr : normalizeRev [exRev] = some [(exRev, 25771680)] := by decide
  have hcd : costDaily [(exCost, 25771680)] = [exCAgg] := by
    rw [costDaily_singleton]; decide
  have hrd : revDaily [(exRev, 25771680)] = [exRAgg] := by
    rw [revDaily_singleton]; decide
  have hom : outerMerge [exCAgg] [exRAgg] = [exJ] := by decide
  have hfd : fillDefaults exJ = exM := by decide
  have hdm : derive exM = exRep := by norm_num [derive, safe_div, exM, exRep]
  have hfmt : fmtDay 25771680 = "2019/01/01" := by decide
  rw [runPipeline, hnc, hnr]
  simp only [Option.bind_eq_bind, Option.some_bind]
  rw [show List.filter (fun r => decide (dayMinOfDate exCfg.date_from ≤ dateUtc r.2) &&
      decide (dateUtc r.2 ≤ dayMinOfDate exCfg.date_to)) [(exCost, 25771680)]
      = [(exCost, 25771680)] from by decide]
  rw [show List.filter (fun r => decide (dayMinOfDate exCfg.date_from ≤ dateUtc r.2) &&
      decide (dateUtc r.2 ≤ dayMinOfDate exCfg.date_to)) [(exRev, 25771680)]
      = [(exRev, 25771680)] from by decide]
  rw [hcd, hrd, hom, List.map_singleton, hfd, hdm]
  have hto : toOutRow false [] [] exRep = exOut := by
    simp [toOutRow, exRep, exOut, hfmt, lookupKD]
  simp [exCfg, List.insertionSort, List.orderedInsert, hto]

/-! ## Claims -/

/-- C1 (counterexample): on the spec's end-to-end example input, the output is
not the single row the claim asserts — the claim's `totalRoi = 1.0` disagrees
with the computed `(20/10) / (5/10) = 4.0`. -/
theorem c1_end_to_end_counterexample :
    runPipeline exCfg [exCost] [exRev] ≠ some [exOutClaimed] := by
  rw [pipelineEx_eval]
  intro h
  have h2 : exOut = exOutClaimed := by
    have := congrArg (fun o => o.getD []) h
    simpa using this
  have h3 : exOut.total_roi = exOutClaimed.total_roi := by rw [h2]
  norm_num [exOut, exOutClaimed] at h3

/-- C1 (amended): on the end-to-end example input (one cost row
`A, Ads, clicks 10, cost 5.0, 12/31/18 19:00`, one revenue row
`A, revenue 20.0, 12/31/18 19:00`, window 2019-01-01..2019-01-01, hourly
off), the output is exactly one row `2019/01/01, A, Ads, totalRevenue 20.0,
totalCost 5.0, totalProfit 15.0, totalClicks 10.0, totalRoi 4.0,
avgCpc 0.5`. -/
theorem c1_end_to_end_amended : runPipeline exCfg [exCost] [exRev] = some [exOut] :=
  pipelineEx_eval

/-- C2: `safe_div` returns the undefined sentinel (`none`, modelling NaN)
whenever the denominator is 0, returns exactly `a / b` for a nonzero
denominator (in particular `0 / b = 0`), and propagates an undefined operand
to an undefined result; it is a total function (no fault). -/
theorem c2_safe_div_contract :
    (∀ a : Option ℚ, safe_div a (some 0) = none) ∧
    (∀ x y : ℚ, y ≠ 0 → safe_div (some x) (some y) = some (x / y)) ∧
    (∀ y : ℚ, y ≠ 0 → safe_div (some 0) (some y) = some 0) ∧
    (∀ b : Option ℚ, safe_div none b = none) ∧
    (∀ a : Option ℚ, safe_div a none = none) := by
  refine ⟨fun a => ?_, fun x y hy => by simp [safe_div, hy],
    fun y hy => by simp [safe_div, hy], fun b => ?_, fun a => ?_⟩
  · cases a <;> simp [safe_div]
  · cases b <;> simp [safe_div]
  · cases a <;> simp [safe_div]

/-- C2 witness at concrete inputs. -/
theorem c2_safe_div_contract_witness :
    safe_div (some 3) (some 0) = none ∧ safe_div (some 3) (some 2) = some (3 / 2) ∧
    safe_div (some 0) (some 2) = some 0 :=
  ⟨c2_safe_div_contract.1 (some 3), c2_safe_div_contract.2.1 3 2 (by norm_num),
    c2_safe_div_contract.2.2.1 2 (by norm_num)⟩

/-- A merged row on which the double-division ROI differs from the direct
ratio: zero clicks but equal nonzero revenue and cost. -/
def roiCounterRow : MergedRow :=
  { date_utc := 0, campaign_id := "", campaign_name := ""
    total_cost := 1, total_clicks := 0, total_revenue := 1 }

/-- C3: every derived report row's `totalRoi` is exactly
`safeDivide(safeDivide(totalRevenue, totalClicks), safeDivide(totalCost,
totalClicks))`, and this is not the direct ratio `totalRevenue/totalCost`
(they differ on a zero-click row). -/
theorem c3_roi_formula :
    (∀ m : MergedRow, (derive m).total_roi =
      safe_div (safe_div (some m.total_revenue) (some m.total_clicks))
        (safe_div (some m.total_cost) (some m.total_clicks))) ∧
    ¬(∀ m : MergedRow, (derive m).total_roi =
        safe_div (some m.total_revenue) (some m.total_cost)) := by
  constructor
  · intro m
    rfl
  · intro h
    have h2 := h roiCounterRow
    norm_num [derive, safe_div, roiCounterRow] at h2
    exact Option.noConfusion h2

/-- C3 witness: the ROI formula instantiated at the example's merged row. -/
theorem c3_roi_formula_witness :
    (derive exM).total_roi =
      safe_div (safe_div (some exM.total_revenue) (some exM.total_clicks))
        (safe_div (some exM.total_cost) (some exM.total_clicks)) :=
  c3_roi_formula.1 exM

/-- The DST model matches the historical America/New_York transitions on
pre-2007 dates: the 2001 fold was 2001-10-28 (last Sunday of October), not
2001-11-04; the 2001 gap was 2001-04-01 (first Sunday of April), not the
March date; 1974 and 1975 had the emergency January/February starts; 1980
used the last-Sunday-of-April / last-Sunday-of-October rule. -/
theorem dst_transitions_pre2007 :
    isAmbiguousDT ⟨2001, 10, 28, 1, 30⟩ = true ∧
    isAmbiguousDT ⟨2001, 11, 4, 1, 30⟩ = false ∧
    isNonexistentDT ⟨2001, 4, 1, 2, 30⟩ = true ∧
    isNonexistentDT ⟨2001, 3, 11, 2, 30⟩ = false ∧
    isNonexistentDT ⟨1974, 1, 6, 2, 30⟩ = true ∧
    isNonexistentDT ⟨1975, 2, 23, 2, 30⟩ = true ∧
    isNonexistentDT ⟨1980, 4, 27, 2, 30⟩ = true ∧
    isAmbiguousDT ⟨1980, 10, 26, 1, 30⟩ = true := by decide

/-- The ambiguous fall-back wall time 2018-11-04 01:30 (occurs twice). -/
def ambDT : LocalDT := ⟨2018, 11, 4, 1, 30⟩

/-- A revenue row carrying the ambiguous timestamp. -/
def ambRow : RevRow := { campaign_id := "A", revenue := 1, data_date := "11/04/18 01:30" }

/-- C5 (counterexample): a feed containing two identical ambiguous local
timestamps need not resolve at all — with three identical ambiguous
timestamps (which contain two), offset inference fails and normalization is
a fatal error rather than two UTC instants an hour apart. -/
theorem c5_dst_fallback_counterexample :
    isAmbiguousDT ambDT = true ∧
    localizeInferList [ambDT, ambDT, ambDT] = none ∧
    normalizeRev [ambRow, ambRow, ambRow] = none := by decide

/-- C5 (amended): a feed consisting of two local timestamps with identical
wall-clock value inside the ambiguous (repeated) window resolves to two
distinct UTC instants exactly one hour apart, in increasing input order
(DST offset first, then standard); feeds whose ambiguous block violates the
inferable pattern fail instead. -/
theorem c5_dst_fallback_amended (d : LocalDT) (h : isAmbiguousDT d = true) :
    localizeInferList [d, d] = some [wallMin d + 240, wallMin d + 300] ∧
    wallMin d + 240 < wallMin d + 300 := by
  refine ⟨?_, by omega⟩
  show inferGo [] [d, d] = _
  rw [inferGo, if_pos h, inferGo, if_pos h, inferGo]
  simp only [List.reverse_cons, List.reverse_nil, List.nil_append, List.cons_append]
  rw [resolveRun]
  simp [deltas, localizeFirst, localizeSecond, h, List.range_succ]

/-- C5 witness at the concrete ambiguous time 2018-11-04 01:30. -/
theorem c5_dst_fallback_witness :
    localizeInferList [ambDT, ambDT] = some [wallMin ambDT + 240, wallMin ambDT + 300] ∧
    wallMin ambDT + 240 < wallMin ambDT + 300 :=
  c5_dst_fallback_amended ambDT (by decide)

/-- Daily key of an outer-merge row. -/
def keyJR (j : JoinedRow) : KeyD := (j.date_utc, j.campaign_id)

/-- The key column of the outer merge is exactly the sorted union of the two
aggregates' key columns. -/
theorem outerMerge_keys (c : List CostAgg) (r : List RevAgg) :
    (outerMerge c r).map keyJR = sortedKeys (c.map keyCA ++ r.map keyRA) := by
  rw [outerMerge, List.map_map]
  have : (keyJR ∘ fun k : KeyD =>
      ({ date_utc := k.1, campaign_id := k.2
         campaign_name := (c.find? fun a => decide (keyCA a = k)).map (·.campaign_name)
         total_cost := (c.find? fun a => decide (keyCA a = k)).map (·.total_cost)
         total_clicks := (c.find? fun a => decide (keyCA a = k)).map (·.total_clicks)
         total_revenue := (r.find? fun a => decide (keyRA a = k)).map (·.total_revenue) }
        : JoinedRow)) = id := by
    funext k
    simp [keyJR]
  rw [this, List.map_id]

/-- If a key is absent from a keyed aggregate, `find?` misses. -/
theorem find?_eq_none_of_not_mem_keys {β : Type} (key : β → KeyD) (l : List β) (k : KeyD)
    (h : k ∉ l.map key) : l.find? (fun a => decide (key a = k)) = none := by
  rw [List.find?_eq_none]
  intro x hx
  simp only [decide_eq_true_eq]
  intro he
  exact h (he ▸ List.mem_map_of_mem key hx)

/-- C4: the Reconciler's outer join produces exactly one row per key in the
union of the two key sets (no key dropped or duplicated), its row count is
the size of the key union and at least each input's row count, and a key
present in only one side gets the other side's numeric fields zero-filled
and its campaignName defaulted to the empty string. -/
theorem c4_reconciler_outer_join (c : List CostAgg) (r : List RevAgg)
    (hc : (c.map keyCA).Nodup) (hr : (r.map keyRA).Nodup) :
    ((outerMerge c r).map keyJR).Nodup ∧
    (∀ k : KeyD, k ∈ (outerMerge c r).map keyJR ↔ k ∈ c.map keyCA ∨ k ∈ r.map keyRA) ∧
    (outerMerge c r).length = ((c.map keyCA ++ r.map keyRA).dedup).length ∧
    c.length ≤ (outerMerge c r).length ∧
    r.length ≤ (outerMerge c r).length ∧
    (∀ j ∈ outerMerge c r,
      (keyJR j ∉ c.map keyCA →
        (fillDefaults j).campaign_name = "" ∧ (fillDefaults j).total_cost = 0 ∧
          (fillDefaults j).total_clicks = 0) ∧
      (keyJR j ∉ r.map keyRA → (fillDefaults j).total_revenue = 0)) := by
  have hlen : (outerMerge c r).length = ((c.map keyCA ++ r.map keyRA).dedup).length := by
    rw [outerMerge, List.length_map, length_sortedKeys]
  have hcard : ((c.map keyCA ++ r.map keyRA).dedup).length
      = ((c.map keyCA ++ r.map keyRA).toFinset).card := (List.card_toFinset _).symm
  refine ⟨?_, ?_, hlen, ?_, ?_, ?_⟩
  · rw [outerMerge_keys]
    exact nodup_sortedKeys _
  · intro k
    rw [outerMerge_keys, mem_sortedKeys, List.mem_append]
  · calc c.length = (c.map keyCA).length := (List.length_map c keyCA).symm
      _ = (c.map keyCA).toFinset.card := by
          rw [List.card_toFinset, List.dedup_eq_self.mpr hc]
      _ ≤ ((c.map keyCA ++ r.map keyRA).toFinset).card := by
          refine Finset.card_le_card ?_
          rw [List.toFinset_append]
          exact Finset.subset_union_left
      _ = ((c.map keyCA ++ r.map keyRA).dedup).length := by rw [List.card_toFinset]
      _ = (outerMerge c r).length := hlen.symm
  · calc r.length = (r.map keyRA).length := (List.length_map r keyRA).symm
      _ = (r.map keyRA).toFinset.card := by
          rw [List.card_toFinset, List.dedup_eq_self.mpr hr]
      _ ≤ ((c.map keyCA ++ r.map keyRA).toFinset).card := by
          refine Finset.card_le_card ?_
          rw [List.toFinset_append]
          exact Finset.subset_union_right
      _ = ((c.map keyCA ++ r.map keyRA).dedup).length := by rw [List.card_toFinset]
      _ = (outerMerge c r).length := hlen.symm
  · intro j hj
    rw [outerMerge] at hj
    obtain ⟨k, _, rfl⟩ := List.mem_map.mp hj
    constructor
    · intro hnc
      have hfc : c.find? (fun a => decide (keyCA a = k)) = none :=
        find?_eq_none_of_not_mem_keys keyCA c k hnc
      simp [fillDefaults, hfc]
    · intro hnr
      have hfr : r.find? (fun a => decide (keyRA a = k)) = none :=
        find?_eq_none_of_not_mem_keys keyRA r k hnr
      simp [fillDefaults, hfr]

/-- A second revenue aggregate whose campaign appears in no cost aggregate. -/
def exRAggB : RevAgg := { date_utc := 25771680, campaign_id := "B", total_revenue := 7 }

/-- C4 witness: one cost aggregate and one revenue aggregate with distinct
keys join into two rows. -/
theorem c4_reconciler_outer_join_witness :
    (outerMerge [exCAgg] [exRAggB]).length
      = (([exCAgg].map keyCA ++ [exRAggB].map keyRA).dedup).length ∧
    [exCAgg].length ≤ (outerMerge [exCAgg] [exRAggB]).length ∧
    [exRAggB].length ≤ (outerMerge [exCAgg] [exRAggB]).length := by
  have h := c4_reconciler_outer_join [exCAgg] [exRAggB] (by decide) (by decide)
  exact ⟨h.2.2.1, h.2.2.2.1, h.2.2.2.2.1⟩

/-- C6: a (day, campaign) key present only in the revenue aggregate yields a
derived report row with totalCost 0, campaignName empty, and both avgCpc and
totalRoi undefined (NaN). -/
theorem c6_revenue_only_campaign (c : List CostAgg) (r : List RevAgg) (k : KeyD)
    (hk : k ∈ r.map keyRA) (hnc : k ∉ c.map keyCA) :
    ∃ row ∈ (outerMerge c r).map fun j => derive (fillDefaults j),
      (row.date_utc, row.campaign_id) = k ∧ row.total_cost = 0 ∧
      row.campaign_name = "" ∧ row.avg_cpc = none ∧ row.total_roi = none := by
  have hkm : k ∈ sortedKeys (c.map keyCA ++ r.map keyRA) :=
    mem_sortedKeys.mpr (List.mem_append.mpr (Or.inr hk))
  have hfc : c.find? (fun a => decide (keyCA a = k)) = none :=
    find?_eq_none_of_not_mem_keys keyCA c k hnc
  rw [outerMerge]
  refine ⟨derive (fillDefaults
    { date_utc := k.1, campaign_id := k.2
      campaign_name := (c.find? fun a => decide (keyCA a = k)).map (·.campaign_name)
      total_cost := (c.find? fun a => decide (keyCA a = k)).map (·.total_cost)
      total_clicks := (c.find? fun a => decide (keyCA a = k)).map (·.total_clicks)
      total_revenue := (r.find? fun a => decide (keyRA a = k)).map (·.total_revenue) }),
    List.mem_map_of_mem _ (List.mem_map_of_mem _ hkm), ?_, ?_, ?_, ?_, ?_⟩
  · simp [derive, fillDefaults]
  · simp [derive, fillDefaults, hfc]
  · simp [derive, fillDefaults, hfc]
  · simp [derive, fillDefaults, safe_div, hfc]
  · simp [derive, fillDefaults, safe_div, hfc]

/-- C6 witness: campaign B appears only in the revenue aggregate. -/
theorem c6_revenue_only_campaign_witness :
    ∃ row ∈ (outerMerge [exCAgg] [exRAggB]).map fun j => derive (fillDefaults j),
      (row.date_utc, row.campaign_id) = ((25771680 : Int), "B") ∧ row.total_cost = 0 ∧
      row.campaign_name = "" ∧ row.avg_cpc = none ∧ row.total_roi = none :=
  c6_revenue_only_campaign [exCAgg] [exRAggB] (25771680, "B") (by decide) (by decide)

/-! ## The key order is a linear order; sorted-dedup is permutation invariant -/

instance : IsTotal KeyD keyLe :=
  ⟨fun a b => by
    unfold keyLe
    rcases lt_trichotomy a.1 b.1 with h | h | h
    · exact Or.inl (Or.inl h)
    · rcases le_total a.2 b.2 with h2 | h2
      · exact Or.inl (Or.inr ⟨h, h2⟩)
      · exact Or.inr (Or.inr ⟨h.symm, h2⟩)
    · exact Or.inr (Or.inl h)⟩

instance : IsTrans KeyD keyLe :=
  ⟨fun a b c hab hbc => by
    unfold keyLe at hab hbc ⊢
    rcases hab with h1 | ⟨he1, hs1⟩ <;> rcases hbc with h2 | ⟨he2, hs2⟩
    · exact Or.inl (lt_trans h1 h2)
    · exact Or.inl (he2 ▸ h1)
    · exact Or.inl (he1 ▸ h2)
    · exact Or.inr ⟨he1.trans he2, le_trans hs1 hs2⟩⟩

instance : IsAntisymm KeyD keyLe :=
  ⟨fun a b hab hba => by
    unfold keyLe at hab hba
    rcases hab with h1 | ⟨he1, hs1⟩ <;> rcases hba with h2 | ⟨he2, hs2⟩
    · exact absurd h2 (lt_asymm h1)
    · exact absurd h1 (he2 ▸ lt_irrefl b.1)
    · exact absurd h2 (he1 ▸ lt_irrefl b.1)
    · exact Prod.ext he1 (le_antisymm hs1 hs2)⟩

/-- Sorting the deduplicated keys is invariant under permutation of the key
column (pandas group keys do not depend on input row order). -/
theorem sortedKeys_perm {l l' : List KeyD} (hp : l.Perm l') : sortedKeys l = sortedKeys l' :=
  List.eq_of_perm_of_sorted
    ((List.perm_insertionSort keyLe l.dedup).trans
      (hp.dedup.trans (List.perm_insertionSort keyLe l'.dedup).symm))
    (List.sorted_insertionSort keyLe _) (List.sorted_insertionSort keyLe _)

/-! ## The string MIN reducer -/

theorem foldl_min_mem (t : List String) (h : String) : t.foldl min h ∈ h :: t := by
  induction t generalizing h with
  | nil => simp
  | cons a t ih =>
    simp only [List.foldl_cons]
    rcases List.mem_cons.mp (ih (min h a)) with he | ht
    · rcases min_choice h a with hc | hc
      · exact List.mem_cons.mpr (Or.inl (he.trans hc))
      · exact List.mem_cons.mpr (Or.inr (List.mem_cons.mpr (Or.inl (he.trans hc))))
    · exact List.mem_cons.mpr (Or.inr (List.mem_cons.mpr (Or.inr ht)))

theorem foldl_min_le (t : List String) (h : String) : ∀ x ∈ h :: t, t.foldl min h ≤ x := by
  induction t generalizing h with
  | nil =>
    intro x hx
    rcases List.mem_cons.mp hx with rfl | hx'
    · exact le_refl x
    · exact absurd hx' (List.not_mem_nil x)
  | cons a t ih =>
    intro x hx
    simp only [List.foldl_cons]
    rcases List.mem_cons.mp hx with rfl | hx'
    · exact le_trans (ih (min x a) (min x a) (List.mem_cons_self _ _)) (min_le_left x a)
    · rcases List.mem_cons.mp hx' with rfl | hx''
      · exact le_trans (ih (min h x) (min h x) (List.mem_cons_self _ _)) (min_le_right h x)
      · exact ih (min h a) x (List.mem_cons_of_mem _ hx'')

theorem minString_mem : ∀ (l : List String), l ≠ [] → minString l ∈ l
  | [], h => absurd rfl h
  | h :: t, _ => foldl_min_mem t h

theorem minString_le (l : List String) : ∀ x ∈ l, minString l ≤ x := by
  cases l with
  | nil => intro x hx; exact absurd hx (List.not_mem_nil x)
  | cons h t =>
    intro x hx
    exact foldl_min_le t h x hx

theorem minString_perm {l l' : List String} (hp : l.Perm l') : minString l = minString l' := by
  cases l with
  | nil =>
    rw [← hp.nil_eq]
  | cons a t =>
    have hne : (a :: t) ≠ [] := by simp
    have hne' : l' ≠ [] := by
      intro h0
      subst h0
      exact absurd hp.eq_nil (by simp)
    exact le_antisymm
      (minString_le _ _ (hp.mem_iff.mpr (minString_mem l' hne')))
      (minString_le _ _ (hp.mem_iff.mp (minString_mem _ hne)))

/-- C9: the aggregated `campaignName` of a `(utcDay, campaignId)` cost group
is the lexicographic minimum of the group's names (it belongs to the group
and is ≤ every group name), and the whole daily cost aggregate is identical
for every permutation of the input row order. -/
theorem c9_min_name_deterministic (rows rows' : List (CostRow × Int)) (hp : rows.Perm rows') :
    costDaily rows = costDaily rows' ∧
    ∀ a ∈ costDaily rows,
      (a.campaign_name ∈
        (rows.filter fun r => decide (keyNC r = keyCA a)).map fun r => r.1.campaign_name) ∧
      ∀ n ∈ (rows.filter fun r => decide (keyNC r = keyCA a)).map fun r => r.1.campaign_name,
        a.campaign_name ≤ n := by
  constructor
  · rw [costDaily, costDaily, sortedKeys_perm (hp.map keyNC)]
    apply List.map_congr_left
    intro k _
    have hfp : (rows.filter fun r => decide (keyNC r = k)).Perm
        (rows'.filter fun r => decide (keyNC r = k)) := hp.filter _
    simp only [CostAgg.mk.injEq]
    exact ⟨trivial, trivial, minString_perm (hfp.map _), (hfp.map _).sum_eq, (hfp.map _).sum_eq⟩
  · intro a ha
    rw [costDaily] at ha
    obtain ⟨k, hk, rfl⟩ := List.mem_map.mp ha
    have hkey : keyCA
        { date_utc := k.1, campaign_id := k.2
          campaign_name := minString ((rows.filter fun r => decide (keyNC r = k)).map
            fun r => r.1.campaign_name)
          total_cost := ((rows.filter fun r => decide (keyNC r = k)).map fun r => r.1.cost).sum
          total_clicks :=
            ((rows.filter fun r => decide (keyNC r = k)).map fun r => r.1.clicks).sum }
        = k := by
      simp [keyCA]
    rw [hkey]
    have hk' : k ∈ rows.map keyNC := mem_sortedKeys.mp hk
    obtain ⟨r, hr, hkr⟩ := List.mem_map.mp hk'
    have hrf : r ∈ rows.filter fun x => decide (keyNC x = k) :=
      List.mem_filter.mpr ⟨hr, by simp [hkr]⟩
    have hne : ((rows.filter fun x => decide (keyNC x = k)).map
        fun x => x.1.campaign_name) ≠ [] := by
      intro h0
      have hmm := List.mem_map_of_mem (fun x : CostRow × Int => x.1.campaign_name) hrf
      rw [h0] at hmm
      exact absurd hmm (List.not_mem_nil _)
    exact ⟨minString_mem _ hne, minString_le _⟩

/-- A normalized cost row (name Zeta, instant 2019-01-01 00:00 UTC). -/
def nrmA : CostRow × Int :=
  ({ campaign_id := "A", campaign_name := "Zeta", clicks := 1, cost := 1
     data_date := "12/31/18 19:00" }, 25771680)

/-- A second normalized cost row with the same daily key (name Alpha, one
minute later). -/
def nrmB : CostRow × Int :=
  ({ campaign_id := "A", campaign_name := "Alpha", clicks := 2, cost := 3
     data_date := "12/31/18 19:01" }, 25771740)

/-- C9 witness: swapping the two rows of a group leaves the aggregate
unchanged. -/
theorem c9_min_name_deterministic_witness :
    costDaily [nrmA, nrmB] = costDaily [nrmB, nrmA] :=
  (c9_min_name_deterministic [nrmA, nrmB] [nrmB, nrmA] (List.Perm.swap nrmB nrmA [])).1

/-- C7: in hourly mode, `positiveProfitHours` is the number of zero-filled
hourly buckets of the row's key with strictly positive profit,
`hourlyAvgRevenue` is the arithmetic mean of revenue over all of the key's
hourly buckets (zero-filled buckets count toward the denominator), and a key
with no hourly buckets at all gets the defaults 0 and 0.0. -/
theorem c7_hourly_enrichment (fc : List (CostRow × Int)) (fr : List (RevRow × Int))
    (r : ReportRow) :
    ((toOutRow true (posHours fc fr) (avgHourlyRev fc fr) r).positive_profit_hours
      = some ((((hourlyJoin fc fr).filter fun x =>
          decide (keyHR x = (r.date_utc, r.campaign_id)) &&
            decide (0 < profitH x)).length : Nat) : Int)) ∧
    ((r.date_utc, r.campaign_id) ∈ (hourlyJoin fc fr).map keyHR →
      (toOutRow true (posHours fc fr) (avgHourlyRev fc fr) r).hourly_avg_revenue
        = some ((((hourlyJoin fc fr).filter fun x =>
            decide (keyHR x = (r.date_utc, r.campaign_id))).map (·.revenue)).sum
          / ((((hourlyJoin fc fr).filter fun x =>
            decide (keyHR x = (r.date_utc, r.campaign_id))).length : Nat) : ℚ))) ∧
    ((r.date_utc, r.campaign_id) ∉ (hourlyJoin fc fr).map keyHR →
      (toOutRow true (posHours fc fr) (avgHourlyRev fc fr) r).positive_profit_hours = some 0 ∧
      (toOutRow true (posHours fc fr) (avgHourlyRev fc fr) r).hourly_avg_revenue = some 0) := by
  have hlp : lookupKD (posHours fc fr) (r.date_utc, r.campaign_id) =
      if (r.date_utc, r.campaign_id) ∈ sortedKeys
          (((hourlyJoin fc fr).filter fun x => decide (0 < profitH x)).map keyHR) then
        some ((((hourlyJoin fc fr).filter fun x => decide (0 < profitH x)).filter
          fun x => decide (keyHR x = (r.date_utc, r.campaign_id))).length)
      else none := by
    rw [posHours]
    exact lookupKD_graph _ _ _
  have hla : lookupKD (avgHourlyRev fc fr) (r.date_utc, r.campaign_id) =
      if (r.date_utc, r.campaign_id) ∈ sortedKeys ((hourlyJoin fc fr).map keyHR) then
        some ((((hourlyJoin fc fr).filter fun x =>
            decide (keyHR x = (r.date_utc, r.campaign_id))).map (·.revenue)).sum
          / (((((hourlyJoin fc fr).filter fun x =>
            decide (keyHR x = (r.date_utc, r.campaign_id))).map (·.revenue)).length : Nat) : ℚ))
      else none := by
    rw [avgHourlyRev]
    exact lookupKD_graph _ _ _
  have hcount : (((hourlyJoin fc fr).filter fun x => decide (0 < profitH x)).filter
        fun x => decide (keyHR x = (r.date_utc, r.campaign_id)))
      = ((hourlyJoin fc fr).filter fun x =>
          decide (keyHR x = (r.date_utc, r.campaign_id)) && decide (0 < profitH x)) :=
    List.filter_filter _ _
  refine ⟨?_, ?_, ?_⟩
  · show some (((lookupKD (posHours fc fr) (r.date_utc, r.campaign_id)).getD 0 : Nat) : Int) = _
    rw [hlp]
    by_cases hm : (r.date_utc, r.campaign_id) ∈ sortedKeys
        (((hourlyJoin fc fr).filter fun x => decide (0 < profitH x)).map keyHR)
    · rw [if_pos hm, Option.getD_some, hcount]
    · rw [if_neg hm, Option.getD_none]
      have hnil : ((hourlyJoin fc fr).filter fun x =>
          decide (keyHR x = (r.date_utc, r.campaign_id)) && decide (0 < profitH x)) = [] := by
        rw [List.filter_eq_nil_iff]
        intro a ha
        simp only [Bool.and_eq_true, decide_eq_true_eq, not_and]
        intro hkey hpos
        apply hm
        rw [mem_sortedKeys]
        exact hkey ▸ List.mem_map_of_mem keyHR
          (List.mem_filter.mpr ⟨ha, by simp [hpos]⟩)
      rw [hnil]
      rfl
  · intro hm
    show some ((lookupKD (avgHourlyRev fc fr) (r.date_utc, r.campaign_id)).getD 0) = _
    rw [hla, if_pos (mem_sortedKeys.mpr hm), Option.getD_some, List.length_map]
  · intro hm
    constructor
    · show some (((lookupKD (posHours fc fr) (r.date_utc, r.campaign_id)).getD 0 : Nat) : Int)
        = some 0
      rw [hlp, if_neg (fun hin => hm ?_), Option.getD_none]
      · rfl
      · rcases List.mem_map.mp (mem_sortedKeys.mp hin) with ⟨x, hx, hkx⟩
        exact hkx ▸ List.mem_map_of_mem keyHR (List.mem_filter.mp hx).1
    · show some ((lookupKD (avgHourlyRev fc fr) (r.date_utc, r.campaign_id)).getD 0) = some 0
      rw [hla, if_neg (fun hin => hm (mem_sortedKeys.mp hin)), Option.getD_none]

/-- A report row keyed like the end-to-end example. -/
def exRepKey : ReportRow :=
  { date_utc := 25771680, campaign_id := "A", campaign_name := "Ads"
    total_revenue := 20, total_cost := 5, total_profit := 15, total_clicks := 10
    total_roi := some 4, avg_cpc := some (1 / 2) }

/-- C7 witness: enrichment fields of the example key over the example hourly
buckets. -/
theorem c7_hourly_enrichment_witness :
    (toOutRow true (posHours [(exCost, 25771680)] [(exRev, 25771680)])
        (avgHourlyRev [(exCost, 25771680)] [(exRev, 25771680)]) exRepKey).positive_profit_hours
      = some ((((hourlyJoin [(exCost, 25771680)] [(exRev, 25771680)]).filter fun x =>
          decide (keyHR x = (exRepKey.date_utc, exRepKey.campaign_id)) &&
            decide (0 < profitH x)).length : Nat) : Int) :=
  (c7_hourly_enrichment [(exCost, 25771680)] [(exRev, 25771680)] exRepKey).1

/-- Hourly buckets of a daily key partition that key's rows, so their group
sums add up to the daily group sum. -/
theorem hourly_daily_sum {α : Type} (rows : List α) (k3 : α → KeyH) (kd : α → KeyD)
    (hcompat : ∀ r, ((k3 r).1, (k3 r).2.2) = kd r) (f : α → ℚ) (k : KeyD) :
    (((sortedKeysH (rows.map k3)).filter fun t => decide ((t.1, t.2.2) = k)).map
      fun t => ((rows.filter fun r => decide (k3 r = t)).map f).sum).sum
      = ((rows.filter fun r => decide (kd r = k)).map f).sum := by
  have hnd : ((sortedKeysH (rows.map k3)).filter fun t => decide ((t.1, t.2.2) = k)).Nodup :=
    (nodup_sortedKeysH _).filter _
  have hcomp : ∀ r ∈ rows.filter fun r => decide (kd r = k),
      k3 r ∈ (sortedKeysH (rows.map k3)).filter fun t => decide ((t.1, t.2.2) = k) := by
    intro r hr
    have h1 := List.mem_filter.mp hr
    refine List.mem_filter.mpr ⟨mem_sortedKeysH.mpr (List.mem_map_of_mem k3 h1.1), ?_⟩
    rw [hcompat r]
    exact h1.2
  have hgrp : ∀ t ∈ (sortedKeysH (rows.map k3)).filter fun t => decide ((t.1, t.2.2) = k),
      (rows.filter fun r => decide (k3 r = t)) =
        ((rows.filter fun r => decide (kd r = k)).filter fun r => decide (k3 r = t)) := by
    intro t ht
    have h2 := (List.mem_filter.mp ht).2
    simp only [decide_eq_true_eq] at h2
    refine (filter_filter_of_imp _ _ ?_ rows).symm
    intro r hr
    simp only [decide_eq_true_eq] at hr ⊢
    rw [← hcompat r, hr, h2]
  calc (((sortedKeysH (rows.map k3)).filter fun t => decide ((t.1, t.2.2) = k)).map
      fun t => ((rows.filter fun r => decide (k3 r = t)).map f).sum).sum
      = (((sortedKeysH (rows.map k3)).filter fun t => decide ((t.1, t.2.2) = k)).map
        fun t => (((rows.filter fun r => decide (kd r = k)).filter
          fun r => decide (k3 r = t)).map f).sum).sum :=
        congrArg List.sum (List.map_congr_left fun t ht => by rw [hgrp t ht])
    _ = ((rows.filter fun r => decide (kd r = k)).map f).sum :=
        sum_over_parts _ _ _ _ hnd hcomp

/-- C8: for every `(utcDay, campaignId)`, the hourly cost aggregate's costs
summed over all hour buckets of that key equal the daily aggregate's
totalCost for the key, and likewise hourly revenues sum to totalRevenue —
the independently computed hourly aggregation is consistent with the daily
one (both are 0 for a key absent from the feed). -/
theorem c8_hourly_daily_consistency (fc : List (CostRow × Int)) (fr : List (RevRow × Int))
    (k : KeyD) :
    (((costHourly fc).filter fun a => decide ((a.date_utc, a.campaign_id) = k)).map
        (·.cost)).sum
      = ((((costDaily fc).find? fun a => decide (keyCA a = k)).map (·.total_cost)).getD 0) ∧
    (((revHourly fr).filter fun a => decide ((a.date_utc, a.campaign_id) = k)).map
        (·.revenue)).sum
      = ((((revDaily fr).find? fun a => decide (keyRA a = k)).map (·.total_revenue)).getD 0) := by
  constructor
  · have hfind := find?_map_graph (sortedKeys (fc.map keyNC))
      (fun k =>
        ({ date_utc := k.1
           campaign_id := k.2
           campaign_name := minString ((fc.filter fun r => decide (keyNC r = k)).map
             fun r => r.1.campaign_name)
           total_cost := ((fc.filter fun r => decide (keyNC r = k)).map
             fun r => r.1.cost).sum
           total_clicks := ((fc.filter fun r => decide (keyNC r = k)).map
             fun r => r.1.clicks).sum } : CostAgg))
      keyCA (fun _ => rfl) k
    rw [costHourly, List.filter_map, List.map_map, costDaily, hfind]
    refine Eq.trans (hourly_daily_sum fc keyNCH keyNC (fun r => rfl)
      (fun r => r.1.cost) k) ?_
    by_cases hm : k ∈ sortedKeys (fc.map keyNC)
    · rw [if_pos hm]
      rfl
    · rw [if_neg hm]
      have hnil : (fc.filter fun r => decide (keyNC r = k)) = [] := by
        rw [List.filter_eq_nil_iff]
        intro r hr
        simp only [decide_eq_true_eq]
        intro he
        exact hm (mem_sortedKeys.mpr (he ▸ List.mem_map_of_mem keyNC hr))
      rw [hnil]
      rfl
  · have hfind := find?_map_graph (sortedKeys (fr.map keyNR))
      (fun k =>
        ({ date_utc := k.1
           campaign_id := k.2
           total_revenue := ((fr.filter fun r => decide (keyNR r = k)).map
             fun r => r.1.revenue).sum } : RevAgg))
      keyRA (fun _ => rfl) k
    rw [revHourly, List.filter_map, List.map_map, revDaily, hfind]
    refine Eq.trans (hourly_daily_sum fr keyNRH keyNR (fun r => rfl)
      (fun r => r.1.revenue) k) ?_
    by_cases hm : k ∈ sortedKeys (fr.map keyNR)
    · rw [if_pos hm]
      rfl
    · rw [if_neg hm]
      have hnil : (fr.filter fun r => decide (keyNR r = k)) = [] := by
        rw [List.filter_eq_nil_iff]
        intro r hr
        simp only [decide_eq_true_eq]
        intro he
        exact hm (mem_sortedKeys.mpr (he ▸ List.mem_map_of_mem keyNR hr))
      rw [hnil]
      rfl

/-- C8 witness: cost side of the consistency equation at the example's key
and feed. -/
theorem c8_hourly_daily_consistency_witness :
    (((costHourly [(exCost, 25771680)]).filter fun a =>
        decide ((a.date_utc, a.campaign_id) = ((25771680 : Int), "A"))).map (·.cost)).sum
      = ((((costDaily [(exCost, 25771680)]).find? fun a =>
          decide (keyCA a = ((25771680 : Int), "A"))).map (·.total_cost)).getD 0) :=
  (c8_hourly_daily_consistency [(exCost, 25771680)] [(exRev, 25771680)]
    (25771680, "A")).1

/-- Every daily cost-aggregate key is a key of some input row. -/
theorem mem_keys_of_mem_costDaily {l : List (CostRow × Int)} {a : CostAgg}
    (h : a ∈ costDaily l) : keyCA a ∈ l.map keyNC := by
  rw [costDaily] at h
  obtain ⟨k', hk', rfl⟩ := List.mem_map.mp h
  have hke : keyCA
      { date_utc := k'.1, campaign_id := k'.2
        campaign_name := minString ((l.filter fun r => decide (keyNC r = k')).map
          fun r => r.1.campaign_name)
        total_cost := ((l.filter fun r => decide (keyNC r = k')).map fun r => r.1.cost).sum
        total_clicks :=
          ((l.filter fun r => decide (keyNC r = k')).map fun r => r.1.clicks).sum }
      = k' := by
    simp [keyCA]
  rw [hke]
  exact mem_sortedKeys.mp hk'

/-- Every daily revenue-aggregate key is a key of some input row. -/
theorem mem_keys_of_mem_revDaily {l : List (RevRow × Int)} {a : RevAgg}
    (h : a ∈ revDaily l) : keyRA a ∈ l.map keyNR := by
  rw [revDaily] at h
  obtain ⟨k', hk', rfl⟩ := List.mem_map.mp h
  have hke : keyRA
      { date_utc := k'.1, campaign_id := k'.2
        total_revenue :=
          ((l.filter fun r => decide (keyNR r = k')).map fun r => r.1.revenue).sum }
      = k' := by
    simp [keyRA]
  rw [hke]
  exact mem_sortedKeys.mp hk'

/-- C10: every row of the final output table carries a date string rendering
a UTC day inside the inclusive `[date-from, date-to]` window — the range
filter's restriction survives aggregation, the outer join, enrichment, and
formatting. -/
theorem c10_window_invariant (cfg : Config) (cost : List CostRow) (rev : List RevRow)
    (out : List OutRow) (hrun : runPipeline cfg cost rev = some out) :
    ∀ row ∈ out, ∃ d : Int,
      dayMinOfDate cfg.date_from ≤ d ∧ d ≤ dayMinOfDate cfg.date_to ∧ row.date = fmtDay d := by
  rw [runPipeline] at hrun
  simp only [Option.bind_eq_bind, Option.bind_eq_some, Option.some.injEq] at hrun
  obtain ⟨nc, hnc, nr, hnr, hrun⟩ := hrun
  subst hrun
  intro row hrow
  rw [List.mem_insertionSort] at hrow
  obtain ⟨rr, hrr, rfl⟩ := List.mem_map.mp hrow
  obtain ⟨j, hj, rfl⟩ := List.mem_map.mp hrr
  rw [outerMerge] at hj
  obtain ⟨k, hk, rfl⟩ := List.mem_map.mp hj
  have hbound : dayMinOfDate cfg.date_from ≤ k.1 ∧ k.1 ≤ dayMinOfDate cfg.date_to := by
    rcases List.mem_append.mp (mem_sortedKeys.mp hk) with hkc | hkr
    · obtain ⟨a, ha, hka⟩ := List.mem_map.mp hkc
      have hmem := mem_keys_of_mem_costDaily ha
      rw [hka] at hmem
      obtain ⟨r, hr, hkr2⟩ := List.mem_map.mp hmem
      have hb := (List.mem_filter.mp hr).2
      simp only [Bool.and_eq_true, decide_eq_true_eq] at hb
      have hd1 : dateUtc r.2 = k.1 := congrArg Prod.fst hkr2
      exact ⟨hd1 ▸ hb.1, hd1 ▸ hb.2⟩
    · obtain ⟨a, ha, hka⟩ := List.mem_map.mp hkr
      have hmem := mem_keys_of_mem_revDaily ha
      rw [hka] at hmem
      obtain ⟨r, hr, hkr2⟩ := List.mem_map.mp hmem
      have hb := (List.mem_filter.mp hr).2
      simp only [Bool.and_eq_true, decide_eq_true_eq] at hb
      have hd1 : dateUtc r.2 = k.1 := congrArg Prod.fst hkr2
      exact ⟨hd1 ▸ hb.1, hd1 ▸ hb.2⟩
  exact ⟨k.1, hbound.1, hbound.2, rfl⟩

/-- C10 witness: the end-to-end example's single output row is dated inside
the window. -/
theorem c10_window_invariant_witness :
    ∃ d : Int,
      dayMinOfDate exCfg.date_from ≤ d ∧ d ≤ dayMinOfDate exCfg.date_to ∧
        exOut.date = fmtDay d :=
  c10_window_invariant exCfg [exCost] [exRev] [exOut] pipelineEx_eval exOut
    (List.mem_cons_self exOut [])

end Report
